import Mathlib

/-!
# Verification of the constants-generator serialization subsystem

Shallow embedding of `src/main.rs`: the tagged `Value`/`Object` data model,
the big-endian binary codec (write and read paths), the append-only object
pool, and the bytecode disassembler.

Modelling conventions:
* Rust `u8` bytes are `Nat` (values `< 256` where the source guarantees it);
  byte streams are `List Nat`.
* Rust `i32` is `Int`; `to_be_bytes` / `from_be_bytes` are modelled with
  explicit `% 2^32` two's-complement arithmetic.
* `Rc<Object>` sharing is modelled structurally: a `Value.object` carries the
  object's contents, and the pool is the list of objects in creation order.
* Fallible reads return `Except ReadError`; each constructor of `ReadError`
  marks one panic site of the source (`read_exact` unwrap, `String::from_utf8`
  unwrap, the `unreachable!("Invalid ID")` arm).
* `File` as a write sink is modelled by `Sink`, a bounded buffer with POSIX
  short-write semantics: `write` stores `min (requested, remaining capacity)`
  bytes and returns how many it stored, exactly as `std::io::Write::write`
  may on a full device. The source discards that count, and the model does too.
* The disassembler's `unsafe transmute` of a byte into the `ByteCode` enum is
  modelled by `toByteCode`: bytes `0` and `1` map to the two ops, any other
  byte has no defined image (`DisasmFault.undefinedBehavior`), since the
  transmute is undefined behavior there and no checked branch exists.
-/

/-- The two bytecode ops of `enum ByteCode` (`#[repr(u8)]`):
`ConstantByte = 0`, `Return = 1`. -/
inductive ByteCode where
  | ConstantByte : ByteCode
  | Return : ByteCode
deriving DecidableEq, Repr

/-- The `repr(u8)` discriminant of a `ByteCode` op (the byte the Rust enum
occupies in memory and in a function's `code` body). -/
def ByteCode.toU8 : ByteCode → Nat
  | .ConstantByte => 0
  | .Return => 1

/-- The defined part of `std::mem::transmute::<u8, ByteCode>`: bytes `0` and
`1` are the two discriminants; for any other byte the transmute in
`Object::display` is undefined behavior, so the byte has no image. -/
def toByteCode : Nat → Option ByteCode
  | 0 => some .ConstantByte
  | 1 => some .Return
  | _ => none

/-- `enum Object`: heap constants. A Rust `String`'s contents are its UTF-8
bytes, modelled as `List Nat`; `param_count` is the `u8` field. -/
inductive Object where
  | string (s : List Nat) : Object
  | function (identifier : List Nat) (param_count : Nat) (code : List Nat) : Object
deriving DecidableEq, Repr

/-- `enum Value`: an inline scalar or a (structurally embedded) heap object. -/
inductive Value where
  | int (i : Int) : Value
  | bool (b : Bool) : Value
  | object (o : Object) : Value
deriving DecidableEq, Repr

/-- `type ObjectPool = Vec<Rc<Object>>`, in creation order. -/
def ObjectPool := List Object
deriving DecidableEq, Repr

/-- One `ReadError` constructor per panic site of the source's read path:
`eof` for a failed `read_exact` unwrap, `utf8` for the `String::from_utf8`
unwrap in `read_string`, `invalidTag` for the `unreachable!("Invalid ID")`
arm of `Object::read`. -/
inductive ReadError where
  | eof : ReadError
  | utf8 : ReadError
  | invalidTag : ReadError
deriving DecidableEq, Repr

/-- Big-endian fixed-width encoding: `toBeBytes w n` is the `w`-byte
big-endian representation of `n` (mod `256 ^ w`), as `to_be_bytes` produces. -/
def toBeBytes : Nat → Nat → List Nat
  | 0, _ => []
  | w + 1, n => toBeBytes w (n / 256) ++ [n % 256]

/-- Big-endian decoding, as `from_be_bytes` consumes. -/
def fromBeBytes (l : List Nat) : Nat :=
  l.foldl (fun a b => a * 256 + b) 0

/-- `Read::read_exact` into a `k`-byte buffer: yields exactly `k` bytes and
the rest of the stream, or the I/O failure the source unwraps. -/
def readExact (k : Nat) (s : List Nat) : Except ReadError (List Nat × List Nat) :=
  if s.length < k then .error .eof else .ok (s.take k, s.drop k)

/-- `fn read_u8`. A failed `read_exact` unwrap propagates as the error. -/
def read_u8 (s : List Nat) : Except ReadError (Nat × List Nat) :=
  (readExact 1 s).bind fun p => .ok (fromBeBytes p.1, p.2)

/-- `fn read_usize`: 8 bytes, big-endian. -/
def read_usize (s : List Nat) : Except ReadError (Nat × List Nat) :=
  (readExact 8 s).bind fun p => .ok (fromBeBytes p.1, p.2)

/-- `fn read_i32`: 4 bytes, big-endian, two's complement. -/
def read_i32 (s : List Nat) : Except ReadError (Int × List Nat) :=
  (readExact 4 s).bind fun p =>
    .ok (if fromBeBytes p.1 < 2 ^ 31 then (fromBeBytes p.1 : Int)
      else (fromBeBytes p.1 : Int) - 2 ^ 32, p.2)

/-- `fn read_bytes`: an 8-byte length, then that many raw bytes. -/
def read_bytes (s : List Nat) : Except ReadError (List Nat × List Nat) :=
  (read_usize s).bind fun p => readExact p.1 p.2

/-- Is a continuation byte (`0x80 ..= 0xBF`)? -/
def isCont (b : Nat) : Bool :=
  0x80 ≤ b && b ≤ 0xBF

/-- The UTF-8 validity check `String::from_utf8` performs, over byte lists. -/
def validUtf8 : List Nat → Bool
  | [] => true
  | b :: rest =>
      if b ≤ 0x7F then validUtf8 rest
      else if 0xC2 ≤ b && b ≤ 0xDF then
        match rest with
        | c1 :: rest2 => isCont c1 && validUtf8 rest2
        | [] => false
      else if b = 0xE0 then
        match rest with
        | c1 :: c2 :: rest2 =>
            (0xA0 ≤ c1 && c1 ≤ 0xBF) && isCont c2 && validUtf8 rest2
        | _ => false
      else if 0xE1 ≤ b && b ≤ 0xEC then
        match rest with
        | c1 :: c2 :: rest2 => isCont c1 && isCont c2 && validUtf8 rest2
        | _ => false
      else if b = 0xED then
        match rest with
        | c1 :: c2 :: rest2 =>
            (0x80 ≤ c1 && c1 ≤ 0x9F) && isCont c2 && validUtf8 rest2
        | _ => false
      else if 0xEE ≤ b && b ≤ 0xEF then
        match rest with
        | c1 :: c2 :: rest2 => isCont c1 && isCont c2 && validUtf8 rest2
        | _ => false
      else if b = 0xF0 then
        match rest with
        | c1 :: c2 :: c3 :: rest2 =>
            (0x90 ≤ c1 && c1 ≤ 0xBF) && isCont c2 && isCont c3 && validUtf8 rest2
        | _ => false
      else if 0xF1 ≤ b && b ≤ 0xF3 then
        match rest with
        | c1 :: c2 :: c3 :: rest2 =>
            isCont c1 && isCont c2 && isCont c3 && validUtf8 rest2
        | _ => false
      else if b = 0xF4 then
        match rest with
        | c1 :: c2 :: c3 :: rest2 =>
            (0x80 ≤ c1 && c1 ≤ 0x8F) && isCont c2 && isCont c3 && validUtf8 rest2
        | _ => false
      else false

/-- `fn read_string`: `read_bytes`, then the `String::from_utf8` unwrap;
invalid UTF-8 is the fatal `ReadError.utf8`. The decoded string is returned
as its UTF-8 bytes. -/
def read_string (s : List Nat) : Except ReadError (List Nat × List Nat) :=
  (read_bytes s).bind fun p =>
    if validUtf8 p.1 then .ok (p.1, p.2) else .error .utf8

/-- `Object::to_type_id` (the `ConstantIO` impl on `Object`). -/
def Object.to_type_id : Object → Nat
  | .string _ => 2
  | .function _ _ _ => 3

/-- `Value::to_type_id` (the `ConstantIO` impl on `Value`). -/
def Value.to_type_id : Value → Nat
  | .int _ => 0
  | .bool _ => 1
  | .object o => o.to_type_id

/-- `Object::read`: dispatch on the (already consumed) type-tag byte.
Tags 2 and 3 construct the object, push it on the pool (`Rc::clone` shared
with the returned `Value::Object`), and return the wrapping value; any other
tag is the `unreachable!("Invalid ID")` panic. -/
def Object.read (byte_id : Nat) (s : List Nat) (pool : List Object) :
    Except ReadError (Value × List Nat × List Object) :=
  match byte_id with
  | 2 =>
      (read_string s).bind fun p =>
        .ok (Value.object (Object.string p.1), p.2, pool ++ [Object.string p.1])
  | 3 =>
      (read_string s).bind fun p =>
        (read_u8 p.2).bind fun q =>
          (read_bytes q.2).bind fun r =>
            .ok (Value.object (Object.function p.1 q.1 r.1), r.2,
              pool ++ [Object.function p.1 q.1 r.1])
  | _ => .error .invalidTag

/-- `Value::read`: tags 0 and 1 decode the scalar payload directly; every
other tag is delegated to `Object::read`. -/
def Value.read (byte_id : Nat) (s : List Nat) (pool : List Object) :
    Except ReadError (Value × List Nat × List Object) :=
  match byte_id with
  | 0 => (read_i32 s).bind fun p => .ok (Value.int p.1, p.2, pool)
  | 1 => (read_u8 s).bind fun p => .ok (Value.bool (p.1 == 1), p.2, pool)
  | _ => Object.read byte_id s pool

/-- The loop body of `load_values_from_disk`: read `count` value records,
each one a type-tag byte followed by `Value::read`, appending the decoded
values in read order and threading the pool. -/
def load_loop (count : Nat) (s : List Nat) (values : List Value)
    (pool : List Object) : Except ReadError (List Value × List Nat × List Object) :=
  match count with
  | 0 => .ok (values, s, pool)
  | k + 1 =>
      (read_u8 s).bind fun p =>
        (Value.read p.1 p.2 pool).bind fun q =>
          load_loop k q.2.1 (values ++ [q.1]) q.2.2

/-- `fn load_values_from_disk`: an 8-byte big-endian count, then that many
value records. Returns the decoded values, the unread tail of the stream,
and the final pool. -/
def load_values_from_disk (s : List Nat) (pool : List Object) :
    Except ReadError (List Value × List Nat × List Object) :=
  (read_usize s).bind fun p => load_loop p.1 p.2 [] pool

/-- `Value::from_string`: allocate the string object, push it on the pool,
return the sharing `Value::Object`. -/
def Value.from_string (str : List Nat) (pool : List Object) :
    Value × List Object :=
  (Value.object (Object.string str), pool ++ [Object.string str])

/-- `Value::from_function_literal`: allocate the function object, push it on
the pool, return the sharing `Value::Object`. -/
def Value.from_function_literal (id : List Nat) (param_count : Nat)
    (code : List Nat) (pool : List Object) : Value × List Object :=
  (Value.object (Object.function id param_count code),
    pool ++ [Object.function id param_count code])

/-- The open `File` as a write sink: `cap` is how many more bytes the device
can store, `data` the bytes stored so far. -/
structure Sink where
  cap : Nat
  data : List Nat
deriving DecidableEq, Repr

/-- `std::io::Write::write` on a `File`: stores as many of the requested
bytes as capacity allows and returns `Ok(n)` with the number stored —
possibly fewer than requested (a short write, e.g. on a full device). -/
def Sink.write (s : Sink) (bs : List Nat) : Nat × Sink :=
  let n := min bs.length s.cap
  (n, ⟨s.cap - n, s.data ++ bs.take n⟩)

/-- `fn write_string`: `file.write(&str.len().to_be_bytes())` then
`file.write(str.as_bytes())`; both returned byte counts are discarded, as in
the source. -/
def write_string (s : Sink) (str : List Nat) : Sink :=
  let s1 := (s.write (toBeBytes 8 str.length)).2
  (s1.write str).2

/-- `Object::write`: strings are length-prefixed; functions are the
length-prefixed identifier, the 1-byte `param_count`, then the
length-prefixed code bytes. Every `file.write(..)` count is discarded. -/
def Object.write (o : Object) (s : Sink) : Sink :=
  match o with
  | .string str => write_string s str
  | .function identifier param_count code =>
      let s1 := write_string s identifier
      let s2 := (s1.write [param_count % 256]).2
      let s3 := (s2.write (toBeBytes 8 code.length)).2
      (s3.write code).2

/-- `Value::write`: the 1-byte type tag, then the payload. -/
def Value.write (v : Value) (s : Sink) : Sink :=
  let s1 := (s.write [v.to_type_id]).2
  match v with
  | .int i => (s1.write (toBeBytes 4 (i % 2 ^ 32).toNat)).2
  | .bool b => (s1.write [if b then 1 else 0]).2
  | .object o => o.write s1

/-- `fn write_values_to_disk`: the 8-byte big-endian count, then each value
in order. -/
def write_values_to_disk (values : List Value) (s : Sink) : Sink :=
  let s1 := (s.write (toBeBytes 8 values.length)).2
  values.foldl (fun acc v => v.write acc) s1

/-- The byte stream `Object::write` requests of the sink. -/
def Object.encode : Object → List Nat
  | .string str => toBeBytes 8 str.length ++ str
  | .function identifier param_count code =>
      toBeBytes 8 identifier.length ++ identifier ++ [param_count % 256] ++
        toBeBytes 8 code.length ++ code

/-- The payload bytes of a value record (everything after the type tag). -/
def Value.payload : Value → List Nat
  | .int i => toBeBytes 4 (i % 2 ^ 32).toNat
  | .bool b => [if b then 1 else 0]
  | .object o => o.encode

/-- The byte stream `Value::write` requests of the sink: the type tag, then
the payload. -/
def Value.encode (v : Value) : List Nat :=
  v.to_type_id :: v.payload

/-- The value records of a list, concatenated in order. -/
def encode_list : List Value → List Nat
  | [] => []
  | v :: vs => v.encode ++ encode_list vs

/-- The byte stream `write_values_to_disk` requests of the sink: the 8-byte
big-endian count, then the value records. -/
def encode_values (vs : List Value) : List Nat :=
  toBeBytes 8 vs.length ++ encode_list vs

/-- The single pool entry a value's decoding (or construction) creates:
one object for an object value, none for a scalar. -/
def objects_of_value : Value → List Object
  | .object o => [o]
  | _ => []

/-- The pool entries a list of values creates, in creation order. -/
def objects_of : List Value → List Object
  | [] => []
  | v :: vs => objects_of_value v ++ objects_of vs

/-- Well-formedness that the Rust types guarantee for free: `i32` range for
ints; for objects, UTF-8 string contents (a Rust `String` is always valid
UTF-8), `u8` range for `param_count`, and `usize` range for lengths. -/
def Object.wf : Object → Prop
  | .string s => validUtf8 s = true ∧ s.length < 2 ^ 64
  | .function id pc code =>
      validUtf8 id = true ∧ id.length < 2 ^ 64 ∧ pc < 256 ∧ code.length < 2 ^ 64

/-- Well-formedness of a value (see `Object.wf`). -/
def Value.wf : Value → Prop
  | .int i => -(2 ^ 31) ≤ i ∧ i < 2 ^ 31
  | .bool _ => True
  | .object o => o.wf

/-- Well-formedness of a value list: every value well-formed and the count
within `usize` range. -/
def wf_values (vs : List Value) : Prop :=
  vs.length < 2 ^ 64 ∧ ∀ v ∈ vs, v.wf

/-- How a disassembly run can go wrong, one constructor per hazard of the
source loop in `Object::display`:
* `undefinedBehavior b` — the `unsafe transmute` of byte `b ∉ {0, 1}` into
  `ByteCode`, which is undefined behavior (there is no checked branch);
* `operandOutOfBounds` — `code[*ip + 1]` in `byte_instruction` indexing past
  the end (a defined panic). -/
inductive DisasmFault where
  | undefinedBehavior (b : Nat) : DisasmFault
  | operandOutOfBounds : DisasmFault
deriving DecidableEq, Repr

/-- `{ip:04}`: the offset zero-padded to (at least) four digits. -/
def pad4 (n : Nat) : String :=
  let s := toString n
  String.mk (List.replicate (4 - s.length) '0') ++ s

/-- `fn simple_instruction` output line for offset `ip`. -/
def simple_instruction (ip : Nat) (label : String) : String :=
  pad4 ip ++ " " ++ label

/-- `fn byte_instruction` output line for offset `ip` with operand byte
`operand` (the byte at `ip + 1`). -/
def byte_instruction (ip : Nat) (label : String) (operand : Nat) : String :=
  pad4 ip ++ " " ++ label ++ " " ++ toString operand

/-- The disassembly loop of `Object::display`, from cursor `ip`: while
`ip < code.len()`, transmute `code[ip]` to a `ByteCode` op and print one
line. The loop is phrased over the remaining bytes `code[ip..]` (the byte at
the cursor is the head), which the cursor-advance of the source walks through
left to right. Returns the printed lines and the list of cursor values the
loop check sees (each visited offset, ending with the terminating cursor),
or the fault that stops the run: an op byte outside `{0, 1}` (the transmute's
undefined behavior) or `code[ip + 1]` past the end in `byte_instruction`. -/
def disasm : List Nat → Nat → Except DisasmFault (List String × List Nat)
  | [], ip => .ok ([], [ip])
  | b :: tail, ip =>
      match toByteCode b with
      | some .ConstantByte =>
          match tail with
          | [] => .error .operandOutOfBounds
          | operand :: tail2 =>
              (disasm tail2 (ip + 2)).bind fun r =>
                .ok (byte_instruction ip "CONSTANT_BYTE" operand :: r.1, ip :: r.2)
      | some .Return =>
          (disasm tail (ip + 1)).bind fun r =>
            .ok (simple_instruction ip "RETURN" :: r.1, ip :: r.2)
      | none => .error (.undefinedBehavior b)

/-- Do two values carry the same variant (`Int`/`Bool`/`String`/`Function`)? -/
def same_variant : Value → Value → Bool
  | .int _, .int _ => true
  | .bool _, .bool _ => true
  | .object (.string _), .object (.string _) => true
  | .object (.function _ _ _), .object (.function _ _ _) => true
  | _, _ => false

/-- The sample constant list `main` builds in save mode: `Int(100)`,
`Bool(false)`, the string `"Hello!"`, and the function literal
`foo_bar` with one parameter and code `[ConstantByte, 3, Return]`
(identifiers as UTF-8 bytes). -/
def sampleVals : List Value :=
  [Value.int 100, Value.bool false,
    Value.object (Object.string [72, 101, 108, 108, 111, 33]),
    Value.object (Object.function [102, 111, 111, 95, 98, 97, 114] 1
      [ByteCode.ConstantByte.toU8, 3, ByteCode.Return.toU8])]

theorem toBeBytes_length (w n : Nat) : (toBeBytes w n).length = w := by
  induction w generalizing n with
  | zero => rfl
  | succ k ih => simp [toBeBytes, ih]

theorem foldl_toBeBytes (w : Nat) : ∀ n a, n < 256 ^ w →
    (toBeBytes w n).foldl (fun x b => x * 256 + b) a = a * 256 ^ w + n := by
  induction w with
  | zero =>
      intro n a h
      simp [toBeBytes]
      omega
  | succ k ih =>
      intro n a h
      rw [toBeBytes, List.foldl_append]
      have hdiv : n / 256 < 256 ^ k := by
        rw [Nat.div_lt_iff_lt_mul (by norm_num)]
        calc n < 256 ^ (k + 1) := h
          _ = 256 ^ k * 256 := by rw [pow_succ]
      rw [ih (n / 256) a hdiv]
      have hmod := Nat.div_add_mod n 256
      simp only [List.foldl_cons, List.foldl_nil]
      calc (a * 256 ^ k + n / 256) * 256 + n % 256
          = a * (256 ^ k * 256) + (256 * (n / 256) + n % 256) := by ring
        _ = a * 256 ^ (k + 1) + n := by rw [hmod, pow_succ]

theorem fromBeBytes_toBeBytes (w n : Nat) (h : n < 256 ^ w) :
    fromBeBytes (toBeBytes w n) = n := by
  have := foldl_toBeBytes w n 0 h
  simpa [fromBeBytes] using this

theorem readExact_append (k : Nat) (l rest : List Nat) (h : l.length = k) :
    readExact k (l ++ rest) = .ok (l, rest) := by
  unfold readExact
  rw [if_neg (by simp [List.length_append]; omega)]
  rw [List.take_left' h, List.drop_left' h]

theorem except_bind_ok {ε α β : Type} (a : α) (f : α → Except ε β) :
    (Except.ok a).bind f = f a := rfl

theorem except_bind_error {ε α β : Type} (e : ε) (f : α → Except ε β) :
    (Except.error e : Except ε α).bind f = Except.error e := rfl

theorem read_u8_cons (b : Nat) (rest : List Nat) :
    read_u8 (b :: rest) = .ok (b, rest) := by
  have h : readExact 1 (b :: rest) = .ok ([b], rest) := readExact_append 1 [b] rest rfl
  simp [read_u8, h, except_bind_ok, fromBeBytes]

theorem read_usize_encode (n : Nat) (rest : List Nat) (h : n < 2 ^ 64) :
    read_usize (toBeBytes 8 n ++ rest) = .ok (n, rest) := by
  have he := readExact_append 8 (toBeBytes 8 n) rest (toBeBytes_length 8 n)
  simp only [read_usize, he, except_bind_ok]
  rw [fromBeBytes_toBeBytes 8 n (by norm_num at h ⊢; omega)]

theorem read_i32_encode (i : Int) (rest : List Nat)
    (h1 : -(2 ^ 31) ≤ i) (h2 : i < 2 ^ 31) :
    read_i32 (toBeBytes 4 (i % 2 ^ 32).toNat ++ rest) = .ok (i, rest) := by
  have he := readExact_append 4 (toBeBytes 4 (i % 2 ^ 32).toNat) rest
    (toBeBytes_length 4 _)
  have hlt : (i % 2 ^ 32).toNat < 256 ^ 4 := by
    have h3 : i % 2 ^ 32 < 2 ^ 32 := Int.emod_lt_of_pos i (by norm_num)
    norm_num at h3 ⊢
    omega
  simp only [read_i32, he, except_bind_ok]
  rw [fromBeBytes_toBeBytes 4 _ hlt]
  split_ifs with hc
  · simp only [Except.ok.injEq, Prod.mk.injEq, and_true]
    omega
  · simp only [Except.ok.injEq, Prod.mk.injEq, and_true]
    omega

theorem read_bytes_encode (bs rest : List Nat) (h : bs.length < 2 ^ 64) :
    read_bytes (toBeBytes 8 bs.length ++ (bs ++ rest)) = .ok (bs, rest) := by
  simp only [read_bytes, read_usize_encode bs.length (bs ++ rest) h, except_bind_ok]
  exact readExact_append bs.length bs rest rfl

theorem read_string_encode (bs rest : List Nat) (hv : validUtf8 bs = true)
    (h : bs.length < 2 ^ 64) :
    read_string (toBeBytes 8 bs.length ++ (bs ++ rest)) = .ok (bs, rest) := by
  simp only [read_string, read_bytes_encode bs rest h, except_bind_ok]
  simp [hv]

theorem Value_read_two (s : List Nat) (pool : List Object) :
    Value.read 2 s pool = Object.read 2 s pool := rfl

theorem Value_read_three (s : List Nat) (pool : List Object) :
    Value.read 3 s pool = Object.read 3 s pool := rfl

theorem Value_read_ge_four (m : Nat) (s : List Nat) (pool : List Object) :
    Value.read (m + 4) s pool = .error .invalidTag := rfl

/-- Decoding the payload a value's write path produced, at that value's
type tag, yields the value back, consumes exactly the payload, and appends
exactly the value's objects to the pool. -/
theorem Value_read_encode (v : Value) (h : v.wf) (rest : List Nat)
    (pool : List Object) :
    Value.read v.to_type_id (v.payload ++ rest) pool
      = .ok (v, rest, pool ++ objects_of_value v) := by
  cases v with
  | int i =>
      obtain ⟨h1, h2⟩ := h
      have step : Value.read 0 (toBeBytes 4 (i % 2 ^ 32).toNat ++ rest) pool
          = .ok (Value.int i, rest, pool) := by
        unfold Value.read
        simp only [read_i32_encode i rest h1 h2, except_bind_ok]
      simpa [Value.to_type_id, Value.payload, objects_of_value] using step
  | bool b =>
      have step : ∀ c : Nat, Value.read 1 (c :: rest) pool
          = .ok (Value.bool (c == 1), rest, pool) := by
        intro c
        unfold Value.read
        simp only [read_u8_cons c rest, except_bind_ok]
      cases b <;>
        simpa [Value.to_type_id, Value.payload, objects_of_value] using step _
  | object o =>
      cases o with
      | string s =>
          obtain ⟨hv, hlen⟩ := h
          have step : Object.read 2 (toBeBytes 8 s.length ++ (s ++ rest)) pool
              = .ok (Value.object (Object.string s), rest,
                  pool ++ [Object.string s]) := by
            unfold Object.read
            simp only [read_string_encode s rest hv hlen, except_bind_ok]
          simpa [Value.to_type_id, Object.to_type_id, Value.payload, Object.encode,
            objects_of_value, Value_read_two, List.append_assoc] using step
      | function id pc code =>
          obtain ⟨hv, hlen, hpc, hclen⟩ := h
          have step : Object.read 3
              (toBeBytes 8 id.length ++ (id ++ (pc % 256 ::
                (toBeBytes 8 code.length ++ (code ++ rest))))) pool
              = .ok (Value.object (Object.function id (pc % 256) code), rest,
                  pool ++ [Object.function id (pc % 256) code]) := by
            unfold Object.read
            simp only [read_string_encode id _ hv hlen, except_bind_ok,
              read_u8_cons, read_bytes_encode code rest hclen]
          rw [Nat.mod_eq_of_lt hpc] at step
          simp only [Value.to_type_id, Object.to_type_id, Value.payload,
            Object.encode, objects_of_value]
          rw [Value_read_three]
          simp only [List.append_assoc, List.cons_append, List.singleton_append,
            List.nil_append, Nat.mod_eq_of_lt hpc]
          exact step
theorem Value_read_zero (s : List Nat) (pool : List Object) :
    Value.read 0 s pool
      = (read_i32 s).bind fun p => .ok (Value.int p.1, p.2, pool) := rfl

theorem Value_read_one (s : List Nat) (pool : List Object) :
    Value.read 1 s pool
      = (read_u8 s).bind fun p => .ok (Value.bool (p.1 == 1), p.2, pool) := rfl

theorem Object_read_two_eq (s : List Nat) (pool : List Object) :
    Object.read 2 s pool
      = (read_string s).bind fun p =>
          .ok (Value.object (Object.string p.1), p.2,
            pool ++ [Object.string p.1]) := rfl

theorem Object_read_three_eq (s : List Nat) (pool : List Object) :
    Object.read 3 s pool
      = (read_string s).bind fun p =>
          (read_u8 p.2).bind fun q =>
            (read_bytes q.2).bind fun r =>
              .ok (Value.object (Object.function p.1 q.1 r.1), r.2,
                pool ++ [Object.function p.1 q.1 r.1]) := rfl

/-- Reading back `vs.length` records from the records' own encoding, with
anything as the leftover stream, appends exactly `vs` to the accumulator and
exactly the created objects to the pool. -/
theorem load_loop_encode (vs : List Value) :
    ∀ (acc : List Value) (rest : List Nat) (pool : List Object),
      (∀ v ∈ vs, v.wf) →
      load_loop vs.length (encode_list vs ++ rest) acc pool
        = .ok (acc ++ vs, rest, pool ++ objects_of vs) := by
  induction vs with
  | nil =>
      intro acc rest pool _
      simp [load_loop, encode_list, objects_of]
  | cons v vs ih =>
      intro acc rest pool h
      have hv : v.wf := h v (List.mem_cons_self v vs)
      have hrest : ∀ w ∈ vs, w.wf := fun w hw => h w (List.mem_cons_of_mem v hw)
      have hstep := Value_read_encode v hv (encode_list vs ++ rest) pool
      have hrec := ih (acc ++ [v]) rest (pool ++ objects_of_value v) hrest
      simp only [encode_list, Value.encode, List.length_cons, List.cons_append,
        List.append_assoc]
      unfold load_loop
      simp only [read_u8_cons, except_bind_ok, hstep, hrec]
      simp [objects_of, List.append_assoc]

/-- Round trip at the stream level: decoding the full encoding of a
well-formed value list, followed by any junk, returns exactly the list,
leaves the junk unread, and appends exactly the created objects. -/
theorem load_values_encode (vs : List Value) (junk : List Nat)
    (pool : List Object) (h : wf_values vs) :
    load_values_from_disk (encode_values vs ++ junk) pool
      = .ok (vs, junk, pool ++ objects_of vs) := by
  obtain ⟨hlen, hwf⟩ := h
  unfold load_values_from_disk encode_values
  rw [List.append_assoc]
  simp only [read_usize_encode vs.length (encode_list vs ++ junk) hlen,
    except_bind_ok]
  simpa using load_loop_encode vs [] junk pool hwf

theorem Sink_write_full (s : Sink) (bs : List Nat) (h : bs.length ≤ s.cap) :
    s.write bs = (bs.length, ⟨s.cap - bs.length, s.data ++ bs⟩) := by
  simp [Sink.write, Nat.min_eq_left h]

theorem Sink_write_step (s : Sink) (bs : List Nat) (h : bs.length ≤ s.cap) :
    (s.write bs).2 = ⟨s.cap - bs.length, s.data ++ bs⟩ := by
  rw [Sink_write_full s bs h]

theorem write_string_eq (s : Sink) (str : List Nat)
    (h : 8 + str.length ≤ s.cap) :
    write_string s str
      = ⟨s.cap - (8 + str.length), s.data ++ (toBeBytes 8 str.length ++ str)⟩ := by
  unfold write_string
  rw [Sink_write_step s _ (by rw [toBeBytes_length]; omega)]
  rw [toBeBytes_length]
  rw [Sink_write_step _ str (by dsimp only; omega)]
  dsimp only
  simp [Sink.mk.injEq, Nat.sub_sub, List.append_assoc]

theorem Object_write_eq (o : Object) (s : Sink) (h : o.encode.length ≤ s.cap) :
    o.write s = ⟨s.cap - o.encode.length, s.data ++ o.encode⟩ := by
  cases o with
  | string str =>
      have hlen : (Object.string str).encode.length = 8 + str.length := by
        simp [Object.encode, toBeBytes_length]
      rw [hlen] at h ⊢
      unfold Object.write
      dsimp only
      rw [write_string_eq s str h]
      simp [Object.encode]
  | function id pc code =>
      have hlen : (Object.function id pc code).encode.length
          = 8 + id.length + (1 + (8 + code.length)) := by
        simp [Object.encode, toBeBytes_length]
        omega
      rw [hlen] at h ⊢
      unfold Object.write
      dsimp only
      rw [write_string_eq s id (by omega)]
      generalize hd1 : s.data ++ (toBeBytes 8 id.length ++ id) = d1
      have e2 := Sink_write_step ⟨s.cap - (8 + id.length), d1⟩ [pc % 256]
        (by simp; omega)
      dsimp only at e2
      simp only [List.length_singleton] at e2
      rw [e2]
      generalize hd2 : d1 ++ [pc % 256] = d2
      have e3 := Sink_write_step ⟨s.cap - (8 + id.length) - 1, d2⟩
        (toBeBytes 8 code.length) (by simp [toBeBytes_length]; omega)
      dsimp only at e3
      rw [toBeBytes_length] at e3
      rw [e3]
      generalize hd3 : d2 ++ toBeBytes 8 code.length = d3
      have e4 := Sink_write_step ⟨s.cap - (8 + id.length) - 1 - 8, d3⟩ code
        (by simp; omega)
      dsimp only at e4
      rw [e4]
      subst hd3
      subst hd2
      subst hd1
      simp [Object.encode, Sink.mk.injEq, Nat.sub_sub, List.append_assoc]
      all_goals omega

theorem Value_write_eq (v : Value) (s : Sink) (h : v.encode.length ≤ s.cap) :
    v.write s = ⟨s.cap - v.encode.length, s.data ++ v.encode⟩ := by
  have htag : ∀ w : Value, ([w.to_type_id] : List Nat).length = 1 := fun _ => rfl
  cases v with
  | int i =>
      have hlen : (Value.int i).encode.length = 1 + 4 := by
        simp [Value.encode, Value.payload, toBeBytes_length]
      rw [hlen] at h ⊢
      unfold Value.write
      dsimp only
      have e1 := Sink_write_step s [(Value.int i).to_type_id] (by rw [htag]; omega)
      rw [htag] at e1
      rw [e1]
      generalize hd1 : s.data ++ [(Value.int i).to_type_id] = d1
      have e2 := Sink_write_step ⟨s.cap - 1, d1⟩ (toBeBytes 4 (i % 2 ^ 32).toNat)
        (by simp [toBeBytes_length]; omega)
      dsimp only at e2
      rw [toBeBytes_length] at e2
      rw [e2]
      subst hd1
      simp [Value.encode, Value.payload, Value.to_type_id, Sink.mk.injEq,
        Nat.sub_sub, List.append_assoc]
  | bool b =>
      have hlen : (Value.bool b).encode.length = 1 + 1 := by
        simp [Value.encode, Value.payload]
      rw [hlen] at h ⊢
      unfold Value.write
      dsimp only
      have e1 := Sink_write_step s [(Value.bool b).to_type_id] (by rw [htag]; omega)
      rw [htag] at e1
      rw [e1]
      generalize hd1 : s.data ++ [(Value.bool b).to_type_id] = d1
      have e2 := Sink_write_step ⟨s.cap - 1, d1⟩ [if b then 1 else 0]
        (by simp; omega)
      dsimp only at e2
      simp only [List.length_singleton] at e2
      rw [e2]
      subst hd1
      simp [Value.encode, Value.payload, Value.to_type_id, Sink.mk.injEq,
        Nat.sub_sub, List.append_assoc]
  | object o =>
      have hlen : (Value.object o).encode.length = 1 + o.encode.length := by
        simp [Value.encode, Value.payload]
        omega
      rw [hlen] at h ⊢
      unfold Value.write
      dsimp only
      have e1 := Sink_write_step s [(Value.object o).to_type_id] (by rw [htag]; omega)
      rw [htag] at e1
      rw [e1]
      generalize hd1 : s.data ++ [(Value.object o).to_type_id] = d1
      have e2 := Object_write_eq o ⟨s.cap - 1, d1⟩ (by simp; omega)
      dsimp only at e2
      rw [e2]
      subst hd1
      simp [Value.encode, Value.payload, Sink.mk.injEq, Nat.sub_sub,
        List.append_assoc]

theorem foldl_write_eq (vs : List Value) : ∀ s : Sink,
    (encode_list vs).length ≤ s.cap →
    vs.foldl (fun acc v => v.write acc) s
      = ⟨s.cap - (encode_list vs).length, s.data ++ encode_list vs⟩ := by
  induction vs with
  | nil =>
      intro s _
      simp [encode_list]
  | cons v vs ih =>
      intro s h
      have hlen : (encode_list (v :: vs)).length
          = v.encode.length + (encode_list vs).length := by
        simp [encode_list]
      rw [hlen] at h
      simp only [List.foldl_cons]
      rw [Value_write_eq v s (by omega)]
      rw [ih ⟨s.cap - v.encode.length, s.data ++ v.encode⟩ (by simp; omega)]
      dsimp only
      simp [encode_list, Sink.mk.injEq, Nat.sub_sub, List.append_assoc]

/-- What `write_values_to_disk` leaves in a sink with enough capacity: the
full encoding, appended to whatever the sink already held. -/
theorem write_values_to_disk_eq (vs : List Value) (s : Sink)
    (h : (encode_values vs).length ≤ s.cap) :
    write_values_to_disk vs s
      = ⟨s.cap - (encode_values vs).length, s.data ++ encode_values vs⟩ := by
  have hlen : (encode_values vs).length = 8 + (encode_list vs).length := by
    simp [encode_values, toBeBytes_length]
  rw [hlen] at h ⊢
  unfold write_values_to_disk
  dsimp only
  have e1 := Sink_write_step s (toBeBytes 8 vs.length)
    (by rw [toBeBytes_length]; omega)
  rw [toBeBytes_length] at e1
  rw [e1]
  rw [foldl_write_eq vs ⟨s.cap - 8, s.data ++ toBeBytes 8 vs.length⟩
    (by simp; omega)]
  dsimp only
  simp [encode_values, Sink.mk.injEq, Nat.sub_sub, List.append_assoc]

/-- Whatever bytes it is fed, a successful `Value::read` extends the pool by
exactly the objects of the value it returns (none for a scalar, the one
created object for an object value). -/
theorem Value_read_pool (t : Nat) (s : List Nat) (pool : List Object)
    (v : Value) (s2 : List Nat) (pool2 : List Object)
    (h : Value.read t s pool = .ok (v, s2, pool2)) :
    pool2 = pool ++ objects_of_value v := by
  match t with
  | 0 =>
      rw [Value_read_zero] at h
      cases hr : read_i32 s with
      | error e => rw [hr, except_bind_error] at h; exact absurd h (by simp)
      | ok p =>
          rw [hr, except_bind_ok] at h
          simp only [Except.ok.injEq, Prod.mk.injEq] at h
          obtain ⟨hv, _, hp⟩ := h
          subst hv
          simp [objects_of_value, hp]
  | 1 =>
      rw [Value_read_one] at h
      cases hr : read_u8 s with
      | error e => rw [hr, except_bind_error] at h; exact absurd h (by simp)
      | ok p =>
          rw [hr, except_bind_ok] at h
          simp only [Except.ok.injEq, Prod.mk.injEq] at h
          obtain ⟨hv, _, hp⟩ := h
          subst hv
          simp [objects_of_value, hp]
  | 2 =>
      rw [Value_read_two, Object_read_two_eq] at h
      cases hr : read_string s with
      | error e => rw [hr, except_bind_error] at h; exact absurd h (by simp)
      | ok p =>
          rw [hr, except_bind_ok] at h
          simp only [Except.ok.injEq, Prod.mk.injEq] at h
          obtain ⟨hv, _, hp⟩ := h
          subst hv
          simp [objects_of_value, hp]
  | 3 =>
      rw [Value_read_three, Object_read_three_eq] at h
      cases hr : read_string s with
      | error e => rw [hr, except_bind_error] at h; exact absurd h (by simp)
      | ok p =>
          rw [hr, except_bind_ok] at h
          cases hq : read_u8 p.2 with
          | error e => rw [hq, except_bind_error] at h; exact absurd h (by simp)
          | ok q =>
              rw [hq, except_bind_ok] at h
              cases hb : read_bytes q.2 with
              | error e => rw [hb, except_bind_error] at h; exact absurd h (by simp)
              | ok r =>
                  rw [hb, except_bind_ok] at h
                  simp only [Except.ok.injEq, Prod.mk.injEq] at h
                  obtain ⟨hv, _, hp⟩ := h
                  subst hv
                  simp [objects_of_value, hp]
  | (m + 4) =>
      rw [Value_read_ge_four] at h
      exact absurd h (by simp)

theorem load_loop_zero (s : List Nat) (acc : List Value) (pool : List Object) :
    load_loop 0 s acc pool = .ok (acc, s, pool) := rfl

theorem load_loop_succ (k : Nat) (s : List Nat) (acc : List Value)
    (pool : List Object) :
    load_loop (k + 1) s acc pool
      = (read_u8 s).bind fun p =>
          (Value.read p.1 p.2 pool).bind fun q =>
            load_loop k q.2.1 (acc ++ [q.1]) q.2.2 := rfl

/-- Whatever bytes it is fed, a successful run of the reading loop returns
the accumulator extended by some decoded suffix, and extends the pool by
exactly the objects of that suffix, in decode order. -/
theorem load_loop_pool (n : Nat) : ∀ (s : List Nat) (acc : List Value)
    (pool : List Object) (vs : List Value) (rest : List Nat)
    (pool2 : List Object),
    load_loop n s acc pool = .ok (vs, rest, pool2) →
    ∃ suf, vs = acc ++ suf ∧ pool2 = pool ++ objects_of suf := by
  induction n with
  | zero =>
      intro s acc pool vs rest pool2 h
      rw [load_loop_zero] at h
      simp only [Except.ok.injEq, Prod.mk.injEq] at h
      obtain ⟨h1, _, h3⟩ := h
      exact ⟨[], by simp [objects_of, ← h1, ← h3]⟩
  | succ k ih =>
      intro s acc pool vs rest pool2 h
      rw [load_loop_succ] at h
      cases hu : read_u8 s with
      | error e => rw [hu, except_bind_error] at h; exact absurd h (by simp)
      | ok p =>
          rw [hu, except_bind_ok] at h
          cases hv : Value.read p.1 p.2 pool with
          | error e => rw [hv, except_bind_error] at h; exact absurd h (by simp)
          | ok q =>
              rw [hv, except_bind_ok] at h
              obtain ⟨suf, hvs, hpool⟩ := ih q.2.1 (acc ++ [q.1]) q.2.2 vs rest pool2 h
              have hq : q.2.2 = pool ++ objects_of_value q.1 :=
                Value_read_pool p.1 p.2 pool q.1 q.2.1 q.2.2 (by rw [hv])
              refine ⟨q.1 :: suf, ?_, ?_⟩
              · simp [hvs, List.append_assoc]
              · rw [hpool, hq]
                simp [objects_of, List.append_assoc]

/-- Whatever bytes it is fed, a successful `load_values_from_disk` leaves the
pool equal to the starting pool followed by exactly one entry per decoded
object value, in decode (= creation) order. -/
theorem load_values_pool (bytes : List Nat) (pool0 : List Object)
    (vs : List Value) (rest : List Nat) (pool1 : List Object)
    (h : load_values_from_disk bytes pool0 = .ok (vs, rest, pool1)) :
    pool1 = pool0 ++ objects_of vs := by
  unfold load_values_from_disk at h
  cases hu : read_usize bytes with
  | error e => rw [hu, except_bind_error] at h; exact absurd h (by simp)
  | ok p =>
      rw [hu, except_bind_ok] at h
      obtain ⟨suf, hvs, hpool⟩ := load_loop_pool p.1 p.2 [] pool0 vs rest pool1 h
      simp only [List.nil_append] at hvs
      rw [hpool, hvs]

/-- The sample list is well formed: the int is in `i32` range, the string
and the function identifier are valid UTF-8, `param_count` fits a `u8`, and
all lengths fit a `usize`. -/
theorem sampleVals_wf : wf_values sampleVals := by
  refine ⟨by decide, ?_⟩
  intro v hv
  simp only [sampleVals, List.mem_cons, List.not_mem_nil, or_false] at hv
  rcases hv with rfl | rfl | rfl | rfl
  · exact ⟨by decide, by decide⟩
  · exact trivial
  · exact ⟨by decide, by decide⟩
  · exact ⟨by decide, by decide, by decide, by decide⟩

/-- C1: Round-trip law — decoding the byte stream the writer produced for
any well-formed ordered sequence of values (on a sink with enough capacity,
so no write is cut short) yields an equal sequence: scalars equal by value,
strings equal by text, functions equal by identifier, `param_count` and code
bytes. -/
theorem C1_round_trip (vs : List Value) (cap : Nat) (h : wf_values vs)
    (hcap : (encode_values vs).length ≤ cap) :
    load_values_from_disk (write_values_to_disk vs ⟨cap, []⟩).data []
      = .ok (vs, [], objects_of vs) := by
  rw [write_values_to_disk_eq vs ⟨cap, []⟩ (by simpa using hcap)]
  dsimp only
  rw [List.nil_append]
  simpa using load_values_encode vs [] [] h

/-- Witness for C1 at the sample list `main` persists (an int, a bool, a
string, and a function literal), on a 100-byte sink. -/
theorem C1_round_trip_witness :
    load_values_from_disk (write_values_to_disk sampleVals ⟨100, []⟩).data []
      = .ok (sampleVals, [], objects_of sampleVals) :=
  C1_round_trip sampleVals 100 sampleVals_wf (by decide)

/-- C2: the claim that every op byte passes through a checked mapping fails
on the source: `Object::display` transmutes the raw byte unchecked, so an op
byte outside `{0, 1}` (here `2`, the first byte of the code body) reaches
undefined behavior, not a defined invariant-violation branch. The two known
discriminants do map to the two ops, and every other byte has no image. -/
theorem C2_op_byte_transmute_is_unchecked :
    toByteCode ByteCode.ConstantByte.toU8 = some ByteCode.ConstantByte ∧
    toByteCode ByteCode.Return.toU8 = some ByteCode.Return ∧
    toByteCode 2 = none ∧
    toByteCode 255 = none ∧
    disasm [2] 0 = .error (.undefinedBehavior 2) ∧
    disasm [255, 1] 0 = .error (.undefinedBehavior 255) :=
  ⟨rfl, rfl, rfl, rfl, rfl, rfl⟩

/-- C3: Tag stability — `to_type_id` is a pure function of the variant,
returning exactly 0 for `Int`, 1 for `Bool`, 2 for `String`, 3 for
`Function` and nothing else, and the written tag makes the read dispatch
reconstruct a value of the same variant. -/
theorem C3_tag_stability (v : Value) (rest : List Nat) (pool : List Object)
    (h : v.wf) :
    v.to_type_id = (match v with
      | .int _ => 0
      | .bool _ => 1
      | .object (.string _) => 2
      | .object (.function _ _ _) => 3) ∧
    v.to_type_id < 4 ∧
    ∃ v2 rest2 pool2,
      Value.read v.to_type_id (v.payload ++ rest) pool = .ok (v2, rest2, pool2) ∧
      same_variant v v2 = true := by
  refine ⟨?_, ?_, v, rest, pool ++ objects_of_value v,
    Value_read_encode v h rest pool, ?_⟩
  · cases v with
    | int i => rfl
    | bool b => rfl
    | object o => cases o <;> rfl
  · cases v with
    | int i => norm_num [Value.to_type_id]
    | bool b => norm_num [Value.to_type_id]
    | object o => cases o <;> norm_num [Value.to_type_id, Object.to_type_id]
  · cases v with
    | int i => rfl
    | bool b => rfl
    | object o => cases o <;> rfl

/-- Witness for C3 at the string value `"A"`. -/
theorem C3_tag_stability_witness :
    (Value.object (Object.string [65])).to_type_id
        = (match Value.object (Object.string [65]) with
          | .int _ => 0
          | .bool _ => 1
          | .object (.string _) => 2
          | .object (.function _ _ _) => 3) ∧
    (Value.object (Object.string [65])).to_type_id < 4 ∧
    ∃ v2 rest2 pool2,
      Value.read (Value.object (Object.string [65])).to_type_id
          ((Value.object (Object.string [65])).payload ++ [7]) []
        = .ok (v2, rest2, pool2) ∧
      same_variant (Value.object (Object.string [65])) v2 = true :=
  C3_tag_stability (Value.object (Object.string [65])) [7] []
    ⟨by decide, by decide⟩

/-- C4: Count fidelity — the writer emits an 8-byte big-endian count whose
decoded value equals the number of value records that follow, and the reader
reads back exactly that many records, in order, leaving any trailing bytes
unread. -/
theorem C4_count_fidelity (vs : List Value) (junk : List Nat)
    (pool : List Object) (h : wf_values vs) :
    encode_values vs = toBeBytes 8 vs.length ++ encode_list vs ∧
    (toBeBytes 8 vs.length).length = 8 ∧
    fromBeBytes (toBeBytes 8 vs.length) = vs.length ∧
    load_values_from_disk (encode_values vs ++ junk) pool
      = .ok (vs, junk, pool ++ objects_of vs) := by
  refine ⟨rfl, toBeBytes_length 8 _, ?_, load_values_encode vs junk pool h⟩
  have hl := h.1
  exact fromBeBytes_toBeBytes 8 _ (by norm_num at hl ⊢; omega)

/-- Witness for C4 at the sample list with two junk bytes after the stream. -/
theorem C4_count_fidelity_witness :
    encode_values sampleVals = toBeBytes 8 sampleVals.length ++ encode_list sampleVals ∧
    (toBeBytes 8 sampleVals.length).length = 8 ∧
    fromBeBytes (toBeBytes 8 sampleVals.length) = sampleVals.length ∧
    load_values_from_disk (encode_values sampleVals ++ [9, 9]) []
      = .ok (sampleVals, [9, 9], [] ++ objects_of sampleVals) :=
  C4_count_fidelity sampleVals [9, 9] [] sampleVals_wf

/-- C5: UTF-8 rejection — a length-prefixed byte span that is not valid
UTF-8 makes the string reader fail with the fatal format error
`ReadError.utf8` (never a truncated or replaced string), and the failure
aborts the decoding of the enclosing string-tagged value record. -/
theorem C5_utf8_rejection (bs rest : List Nat) (pool : List Object)
    (hbad : validUtf8 bs = false) (hlen : bs.length < 2 ^ 64) :
    read_string (toBeBytes 8 bs.length ++ (bs ++ rest)) = .error .utf8 ∧
    Value.read 2 (toBeBytes 8 bs.length ++ (bs ++ rest)) pool = .error .utf8 := by
  have h1 : read_string (toBeBytes 8 bs.length ++ (bs ++ rest)) = .error .utf8 := by
    unfold read_string
    rw [read_bytes_encode bs rest hlen, except_bind_ok]
    simp [hbad]
  refine ⟨h1, ?_⟩
  rw [Value_read_two, Object_read_two_eq, h1, except_bind_error]

/-- Witness for C5 at the one-byte span `0xFF`, which is never valid UTF-8. -/
theorem C5_utf8_rejection_witness :
    read_string (toBeBytes 8 ([255] : List Nat).length ++ ([255] ++ [])) = .error .utf8 ∧
    Value.read 2 (toBeBytes 8 ([255] : List Nat).length ++ ([255] ++ [])) []
      = .error .utf8 :=
  C5_utf8_rejection [255] [] [] (by decide) (by decide)

/-- C6: every type-tag byte outside `{0, 1, 2, 3}` makes `Value::read` fail
with the fatal `ReadError.invalidTag` (the `unreachable!` panic) before any
payload byte is consumed — no `Value` is produced and no resynchronization
is attempted. -/
theorem C6_invalid_tag (t : Nat) (ht : 3 < t) (s : List Nat)
    (pool : List Object) :
    Value.read t s pool = .error .invalidTag := by
  obtain ⟨m, rfl⟩ : ∃ m, t = m + 4 := ⟨t - 4, by omega⟩
  exact Value_read_ge_four m s pool

/-- Witness for C6 at tag 255 on a nonempty stream. -/
theorem C6_invalid_tag_witness :
    Value.read 255 [0, 1, 2] [] = .error .invalidTag :=
  C6_invalid_tag 255 (by decide) [0, 1, 2] []

/-- C7: Pool invariant — after any successful read session the pool is the
starting pool extended by exactly one entry per object value decoded, in
creation order (and never loses an entry), and each construction helper
(`from_string`, `from_function_literal`) pushes exactly the one object its
returned `Value::Object` shares. -/
theorem C7_pool_invariant :
    (∀ (bytes : List Nat) (pool0 : List Object) (vs : List Value)
        (rest : List Nat) (pool1 : List Object),
      load_values_from_disk bytes pool0 = .ok (vs, rest, pool1) →
      pool1 = pool0 ++ objects_of vs) ∧
    (∀ (str : List Nat) (pool : List Object),
      Value.from_string str pool
        = (Value.object (Object.string str), pool ++ [Object.string str])) ∧
    (∀ (id : List Nat) (pc : Nat) (code : List Nat) (pool : List Object),
      Value.from_function_literal id pc code pool
        = (Value.object (Object.function id pc code),
            pool ++ [Object.function id pc code])) :=
  ⟨load_values_pool, fun _ _ => rfl, fun _ _ _ _ => rfl⟩

/-- Witness for C7: a one-string stream decoded from the empty pool leaves
the pool holding exactly that string object. -/
theorem C7_pool_invariant_witness :
    ([Object.string [65]] : List Object)
      = ([] : List Object) ++ objects_of [Value.object (Object.string [65])] :=
  C7_pool_invariant.1 (encode_values [Value.object (Object.string [65])]) []
    [Value.object (Object.string [65])] [] [Object.string [65]] (by rfl)

/-- C8: the claim that a short write fails the whole operation does not hold
of the source: `write_values_to_disk` calls `Write::write` and discards the
returned byte count, so on a sink that stores only 10 of the 13 requested
bytes (device full after the count, the tag, and one payload byte) the
writer runs to completion, the sink holds a truncated stream that is not the
encoding of the list (and no longer even decodes), and no failure is
reported. -/
theorem C8_short_write_keeps_going :
    write_values_to_disk [Value.int 100] ⟨10, []⟩
        = ⟨0, [0, 0, 0, 0, 0, 0, 0, 1, 0, 0]⟩ ∧
    (write_values_to_disk [Value.int 100] ⟨10, []⟩).data
        ≠ encode_values [Value.int 100] ∧
    load_values_from_disk (write_values_to_disk [Value.int 100] ⟨10, []⟩).data []
        = .error .eof :=
  ⟨rfl, by decide, rfl⟩

/-- C9: Disassembly determinism — the three-byte body
`[ConstantByte, 3, Return]` disassembles to exactly the two lines
`0000 CONSTANT_BYTE 3` and `0002 RETURN`; the cursor visits 0, 2 and stops
at 3, the code length, never leaving `[0, code.len()]`. -/
theorem C9_disassembly_determinism :
    disasm [ByteCode.ConstantByte.toU8, 3, ByteCode.Return.toU8] 0
        = .ok (["0000 CONSTANT_BYTE 3", "0002 RETURN"], [0, 2, 3]) ∧
    ([ByteCode.ConstantByte.toU8, 3, ByteCode.Return.toU8] : List Nat).length = 3 ∧
    [0, 2, 3].getLast? = some 3 ∧
    ([0, 2, 3].all fun c => c ≤ 3) = true :=
  ⟨rfl, rfl, rfl, by decide⟩

/-- C10: decoding a value record with tag 1 (Bool) reads one payload byte
and returns `true` exactly when that byte is 1; any other byte (0 or
otherwise) decodes to `false` with no error. -/
theorem C10_bool_decode (b : Nat) (rest : List Nat) (pool : List Object) :
    Value.read 1 (b :: rest) pool = .ok (Value.bool (b == 1), rest, pool) ∧
    ((b == 1) = true ↔ b = 1) := by
  constructor
  · rw [Value_read_one, read_u8_cons, except_bind_ok]
  · exact Nat.beq_eq_true_eq b 1 ▸ Iff.rfl
